import Mathlib

/-
  A verification development for the IPhreeqc output-capture and
  selected-output core (SpaceIm/iphreeqc).

  The repository ships only the public header `include/IPhreeqc.hpp`
  (declarations and API documentation) and a small caller
  `testcpp/testcpp.cpp`; the implementation translation units
  (IPhreeqc.cpp, CSelectedOutput, ErrorReporter, Var.h) are not part of
  the source tree here.  The definitions below therefore model the
  missing implementation from the specification's description of the
  data model and operations, keeping the header's names where Lean
  allows it.  Text is modelled as `List Char`, line terminators as the
  newline character, machine integers as `Nat`/`Int`, and the engine's
  C `double` payload as `Float` (it is only stored and retrieved, never
  computed with).
-/

/-- The line terminator used by every text buffer. -/
def termChar : Char := '\n'

/-- Number of terminators occurring in a piece of text. -/
def countTerm : List Char → Nat
  | [] => 0
  | c :: cs => (if c = termChar then 1 else 0) + countTerm cs

/-- The text strictly before the first terminator (the whole text if
there is none). -/
def takeLine : List Char → List Char
  | [] => []
  | c :: cs => if c = termChar then [] else c :: takeLine cs

/-- The text strictly after the first terminator (empty if there is
none). -/
def dropLine : List Char → List Char
  | [] => []
  | c :: cs => if c = termChar then cs else dropLine cs

/-- Drop everything up to and including the i-th terminator, so that
the result starts at terminator boundary `i` (boundary 0 is the start
of the text). -/
def dropThroughTerm : Nat → List Char → List Char
  | 0, t => t
  | i + 1, t => dropThroughTerm i (dropLine t)

/-- Spec-side rendering of "the text between the i-th and (i+1)-th
terminator" (terminator boundary `i` being the start of line `i`). -/
def segmentBetween (i : Nat) (t : List Char) : List Char :=
  takeLine (dropThroughTerm i t)

/-- Split text at terminators.  A text with `n` terminators yields
`n + 1` segments; the final segment is the unterminated tail. -/
def splitTerm : List Char → List (List Char)
  | [] => [[]]
  | c :: cs =>
    match splitTerm cs with
    | [] => [[]]
    | l :: ls => if c = termChar then [] :: l :: ls else (c :: l) :: ls

/-- Modelled from the spec: the generic text accumulator ("Line
Buffer") whose implementation translation unit is not in the source
tree.  The lazy line index and dirty flag are an optimization with no
observable behavior, so the model recomputes the index per query. -/
structure LineBuffer where
  text : List Char
deriving DecidableEq

def LineBuffer.empty : LineBuffer := ⟨[]⟩

/-- Modelled from the spec: `append(text)`, no validation, text may
lack a trailing terminator. -/
def LineBuffer.append (b : LineBuffer) (t : List Char) : LineBuffer :=
  ⟨b.text ++ t⟩

def LineBuffer.clear (_ : LineBuffer) : LineBuffer := ⟨[]⟩

def LineBuffer.asText (b : LineBuffer) : List Char := b.text

/-- Modelled from the spec: `line_count()` returns the number of
terminator-delimited lines (one per terminator). -/
def LineBuffer.lineCount (b : LineBuffer) : Nat :=
  (splitTerm b.text).length - 1

/-- Modelled from the spec: `line_at(n)` returns an empty string (never
fails) for `n` outside `[0, line_count)`. -/
def LineBuffer.lineAt (b : LineBuffer) (n : Nat) : List Char :=
  if n < b.lineCount then (splitTerm b.text).getD n [] else []

theorem splitTerm_head : ∀ t : List Char, ∃ ls, splitTerm t = takeLine t :: ls := by
  intro t
  induction t with
  | nil => exact ⟨[], rfl⟩
  | cons c cs ih =>
    obtain ⟨ls, hls⟩ := ih
    by_cases hc : c = termChar
    · exact ⟨takeLine cs :: ls, by simp [splitTerm, hls, takeLine, hc]⟩
    · exact ⟨ls, by simp [splitTerm, hls, takeLine, hc]⟩

theorem splitTerm_length : ∀ t : List Char, (splitTerm t).length = countTerm t + 1 := by
  intro t
  induction t with
  | nil => rfl
  | cons c cs ih =>
    obtain ⟨ls, hls⟩ := splitTerm_head cs
    rw [hls] at ih
    simp at ih
    by_cases hc : c = termChar <;> simp [splitTerm, hls, countTerm, hc] <;> omega

theorem splitTerm_getD (t : List Char) :
    ∀ i, i < countTerm t → (splitTerm t).getD i [] = segmentBetween i t := by
  induction t with
  | nil => intro i hi; simp [countTerm] at hi
  | cons c cs ih =>
    intro i hi
    by_cases hc : c = termChar
    · obtain ⟨ls, hls⟩ := splitTerm_head cs
      cases i with
      | zero =>
        simp [splitTerm, hls, hc, segmentBetween, dropThroughTerm, takeLine]
      | succ j =>
        have hj : j < countTerm cs := by
          simp [countTerm, hc] at hi; omega
        have := ih j hj
        simp [splitTerm, hls, hc, segmentBetween, dropThroughTerm, dropLine] at this ⊢
        exact this
    · obtain ⟨ls, hls⟩ := splitTerm_head cs
      have hcnt : countTerm (c :: cs) = countTerm cs := by simp [countTerm, hc]
      cases i with
      | zero =>
        simp [splitTerm, hls, hc, segmentBetween, dropThroughTerm, takeLine]
      | succ j =>
        have hj : j + 1 < countTerm cs := by rw [hcnt] at hi; exact hi
        have := ih (j + 1) hj
        rw [hls] at this
        simp [splitTerm, hls, hc, segmentBetween, dropThroughTerm, dropLine] at this ⊢
        exact this

theorem lineCount_eq_countTerm (b : LineBuffer) : b.lineCount = countTerm b.text := by
  simp [LineBuffer.lineCount, splitTerm_length]

theorem foldl_append_text (ts : List (List Char)) :
    ∀ b : LineBuffer, (ts.foldl LineBuffer.append b).text = b.text ++ ts.flatten := by
  induction ts with
  | nil => intro b; simp
  | cons t ts ih =>
    intro b
    simp [List.foldl_cons, ih, LineBuffer.append]

/-- Modelled from the spec and `Var.h` (not in the source tree): the
result codes of the C `VRESULT` enumeration referenced throughout
`IPhreeqc.hpp`. -/
inductive VRESULT where
  | VR_OK
  | VR_OUTOFMEMORY
  | VR_BADVARTYPE
  | VR_INVALIDARG
  | VR_INVALIDROW
  | VR_INVALIDCOL
  | VR_BADINSTANCE
deriving DecidableEq

/-- Modelled from the spec: the tagged cell value of the
Selected-Output Grid ("Cell: tagged value in Empty, Number(double),
Text(string), Integer(long)"); the `VAR` union of the missing `Var.h`.
The `double` payload is stored opaquely as `Float`. -/
inductive Cell where
  | Empty : Cell
  | Number : Float → Cell
  | Text : List Char → Cell
  | Integer : Int → Cell

/-- Modelled from the spec: the Diagnostics Aggregator half owned
behind the `IErrorReporter` pointer of `IPhreeqc.hpp` (implementation
not in the source tree): one Line Buffer plus a monotonic counter. -/
structure IErrorReporter where
  buf : LineBuffer
  counter : Nat
deriving DecidableEq

def IErrorReporter.empty : IErrorReporter := ⟨LineBuffer.empty, 0⟩

/-- Modelled from the spec: `add(message)` appends `message` plus a
terminator to its Line Buffer, increments its counter, and returns the
post-increment value. -/
def IErrorReporter.add (r : IErrorReporter) (msg : List Char) : IErrorReporter × Nat :=
  (⟨r.buf.append (msg ++ [termChar]), r.counter + 1⟩, r.counter + 1)

/-- Modelled from the spec: the `CSelectedOutput` class declared in
`IPhreeqc.hpp` whose implementation is not in the source tree.  State
is the header row, the committed rows, the staged (uncommitted) cells
of the row in progress, and the column cursor. -/
structure CSelectedOutput where
  header : List (List Char)
  rows : List (List Cell)
  staged : List Cell
  curCol : Nat

def CSelectedOutput.empty : CSelectedOutput := ⟨[], [], [], 0⟩

/-- Modelled from the spec: `add_cell(name, value)` stages `value` at
the current column cursor and advances the cursor; a name not seen
before is appended to the header row. -/
def CSelectedOutput.addCell (g : CSelectedOutput) (name : List Char) (v : Cell) :
    CSelectedOutput :=
  { g with
    header := if name ∈ g.header then g.header else g.header ++ [name]
    staged := g.staged ++ [v]
    curCol := g.curCol + 1 }

/-- Modelled from the spec: `begin_row()` (`EndRow` in `IPhreeqc.hpp`)
finalizes staged cells into a newly committed row and resets the column
cursor; with nothing staged it is a no-op (no empty row committed). -/
def CSelectedOutput.EndRow (g : CSelectedOutput) : CSelectedOutput :=
  if g.staged.isEmpty then g
  else { g with rows := g.rows ++ [g.staged], staged := [], curCol := 0 }

/-- Modelled from the spec: the abort path of the Stop Signal handler
discards only the staged, uncommitted row in progress. -/
def CSelectedOutput.discardStaged (g : CSelectedOutput) : CSelectedOutput :=
  { g with staged := [], curCol := 0 }

/-- `GetSelectedOutputRowCount`: number of committed rows (the header
is addressable as row 0 but not a committed row; the spec's scenarios
count one committed row as `row_count() == 1`). -/
def CSelectedOutput.GetRowCount (g : CSelectedOutput) : Nat := g.rows.length

/-- `GetSelectedOutputColumnCount`: length of the header row. -/
def CSelectedOutput.GetColCount (g : CSelectedOutput) : Nat := g.header.length

/-- Modelled from the spec: `GetSelectedOutputValue`.  Row 0 is the
header rendered as Text cells; rows `1..row_count()` are the committed
rows; an out-of-range index yields `Empty` together with an
out-of-range result code; a cell beyond a row's populated length yields
`Empty`. -/
def CSelectedOutput.Get (g : CSelectedOutput) (row col : Int) : VRESULT × Cell :=
  if row < 0 ∨ (g.rows.length : Int) < row then (.VR_INVALIDROW, .Empty)
  else if col < 0 ∨ (g.header.length : Int) ≤ col then (.VR_INVALIDCOL, .Empty)
  else if row = 0 then (.VR_OK, .Text (g.header.getD col.toNat []))
  else (.VR_OK, (g.rows.getD (row.toNat - 1) []).getD col.toNat .Empty)

/-- The grid operations reachable through the Stream Router's punch
channel, as an explicit alphabet for stating invariants over arbitrary
operation sequences. -/
inductive GridOp where
  | addCell (name : List Char) (v : Cell)
  | endRow

def CSelectedOutput.applyOp (g : CSelectedOutput) : GridOp → CSelectedOutput
  | .addCell name v => g.addCell name v
  | .endRow => g.EndRow

def CSelectedOutput.applyOps (g : CSelectedOutput) (ops : List GridOp) : CSelectedOutput :=
  ops.foldl CSelectedOutput.applyOp g

theorem header_applyOp (g : CSelectedOutput) (op : GridOp) :
    ∃ ext, (g.applyOp op).header = g.header ++ ext := by
  cases op with
  | addCell name v =>
    by_cases h : name ∈ g.header
    · exact ⟨[], by simp [CSelectedOutput.applyOp, CSelectedOutput.addCell, h]⟩
    · exact ⟨[name], by simp [CSelectedOutput.applyOp, CSelectedOutput.addCell, h]⟩
  | endRow =>
    by_cases h : g.staged.isEmpty <;>
      exact ⟨[], by simp [CSelectedOutput.applyOp, CSelectedOutput.EndRow, h]⟩

theorem header_applyOps (ops : List GridOp) :
    ∀ g : CSelectedOutput, ∃ ext, (g.applyOps ops).header = g.header ++ ext := by
  induction ops with
  | nil => intro g; exact ⟨[], by simp [CSelectedOutput.applyOps]⟩
  | cons op ops ih =>
    intro g
    obtain ⟨e1, h1⟩ := header_applyOp g op
    obtain ⟨e2, h2⟩ := ih (g.applyOp op)
    refine ⟨e1 ++ e2, ?_⟩
    have : (g.applyOp op).applyOps ops = g.applyOps (op :: ops) := rfl
    rw [← this, h2, h1, List.append_assoc]

theorem getD_append_left {α : Type} :
    ∀ (l l' : List α) (n : Nat) (d : α), n < l.length → (l ++ l').getD n d = l.getD n d := by
  intro l
  induction l with
  | nil => intro l' n d h; simp at h
  | cons a as ih =>
    intro l' n d h
    cases n with
    | zero => rfl
    | succ m =>
      simp only [List.cons_append, List.getD_cons_succ]
      exact ih l' m d (by simpa using h)

/-- The stream kinds of the engine emission protocol (spec sec. 3). -/
inductive StreamKind where
  | Output
  | Error
  | Warning
  | Log
  | Screen
  | Punch
  | Dump
deriving DecidableEq

/-- Modelled from the spec: one engine emission event reaching the
Stream Router, reimplemented as a closed variant instead of the numeric
action codes of the `handler` callback declared in `IPhreeqc.hpp`;
format expansion has already happened, so writes carry plain text and
punch events carry already-typed values. -/
inductive EngineEvent where
  | write (kind : StreamKind) (text : List Char) (fatal : Bool)
  | punchCell (name : List Char) (v : Cell)
  | punchEndRow

def EngineEvent.isFatal : EngineEvent → Bool
  | .write _ _ f => f
  | _ => false

def hasFatal (evs : List EngineEvent) : Bool := evs.any EngineEvent.isFatal

/-- Modelled from the spec: the API instance state behind the
`IPhreeqc` class of `IPhreeqc.hpp` (constructor body not in the source
tree).  File sinks are external resources; only their routing switches
are part of the observable state. -/
structure IPhreeqc where
  DatabaseLoaded : Bool
  ClearAccumulated : Bool
  SelectedOutputOn : Bool
  OutputOn : Bool
  LogOn : Bool
  ErrorOn : Bool
  DumpOn : Bool
  DumpStringOn : Bool
  errorReporter : IErrorReporter
  warningReporter : IErrorReporter
  SelectedOutput : CSelectedOutput
  StringInput : List Char
  DumpString : LineBuffer
  OutputBuf : LineBuffer
  Components : List (List Char)

/-- Modelled from the spec: the freshly constructed instance; the
header documents "The initial setting is false" for every routing
switch. -/
def IPhreeqc.initial : IPhreeqc :=
  { DatabaseLoaded := false
    ClearAccumulated := false
    SelectedOutputOn := false
    OutputOn := false
    LogOn := false
    ErrorOn := false
    DumpOn := false
    DumpStringOn := false
    errorReporter := IErrorReporter.empty
    warningReporter := IErrorReporter.empty
    SelectedOutput := CSelectedOutput.empty
    StringInput := []
    DumpString := LineBuffer.empty
    OutputBuf := LineBuffer.empty
    Components := [] }

def IPhreeqc.GetOutputFileOn (s : IPhreeqc) : Bool := s.OutputOn

def IPhreeqc.GetLogFileOn (s : IPhreeqc) : Bool := s.LogOn

def IPhreeqc.GetErrorFileOn (s : IPhreeqc) : Bool := s.ErrorOn

def IPhreeqc.GetDumpFileOn (s : IPhreeqc) : Bool := s.DumpOn

def IPhreeqc.GetDumpStringOn (s : IPhreeqc) : Bool := s.DumpStringOn

def IPhreeqc.GetSelectedOutputFileOn (s : IPhreeqc) : Bool := s.SelectedOutputOn

def IPhreeqc.SetOutputFileOn (s : IPhreeqc) (b : Bool) : IPhreeqc := { s with OutputOn := b }

def IPhreeqc.SetLogFileOn (s : IPhreeqc) (b : Bool) : IPhreeqc := { s with LogOn := b }

def IPhreeqc.SetErrorFileOn (s : IPhreeqc) (b : Bool) : IPhreeqc := { s with ErrorOn := b }

def IPhreeqc.SetDumpFileOn (s : IPhreeqc) (b : Bool) : IPhreeqc := { s with DumpOn := b }

def IPhreeqc.SetDumpStringOn (s : IPhreeqc) (b : Bool) : IPhreeqc := { s with DumpStringOn := b }

def IPhreeqc.SetSelectedOutputFileOn (s : IPhreeqc) (b : Bool) : IPhreeqc :=
  { s with SelectedOutputOn := b }

/-- `AddError`: appends the message to the error reporter and returns
the post-increment error count. -/
def IPhreeqc.AddError (s : IPhreeqc) (msg : List Char) : IPhreeqc × Nat :=
  let p := s.errorReporter.add msg
  ({ s with errorReporter := p.1 }, p.2)

/-- `AddWarning`: appends the message to the warning reporter and
returns the post-increment warning count. -/
def IPhreeqc.AddWarning (s : IPhreeqc) (msg : List Char) : IPhreeqc × Nat :=
  let p := s.warningReporter.add msg
  ({ s with warningReporter := p.1 }, p.2)

def IPhreeqc.GetErrorStringLineCount (s : IPhreeqc) : Nat :=
  s.errorReporter.buf.lineCount

/-- Modelled from the spec and the header: `GetErrorStringLine(n)`
returns the given line of the error buffer, the empty string out of
range. -/
def IPhreeqc.GetErrorStringLine (s : IPhreeqc) (n : Int) : List Char :=
  if n < 0 then [] else s.errorReporter.buf.lineAt n.toNat

def IPhreeqc.GetWarningStringLineCount (s : IPhreeqc) : Nat :=
  s.warningReporter.buf.lineCount

def IPhreeqc.GetWarningStringLine (s : IPhreeqc) (n : Int) : List Char :=
  if n < 0 then [] else s.warningReporter.buf.lineAt n.toNat

def IPhreeqc.GetComponentCount (s : IPhreeqc) : Nat := s.Components.length

/-- Modelled from the header: `GetComponent(n)` returns an empty string
if `n` is out of range. -/
def IPhreeqc.GetComponent (s : IPhreeqc) (n : Int) : List Char :=
  if n < 0 then [] else s.Components.getD n.toNat []

def IPhreeqc.GetSelectedOutputRowCount (s : IPhreeqc) : Nat :=
  s.SelectedOutput.GetRowCount

def IPhreeqc.GetSelectedOutputColumnCount (s : IPhreeqc) : Nat :=
  s.SelectedOutput.GetColCount

def IPhreeqc.GetSelectedOutputValue (s : IPhreeqc) (row col : Int) : VRESULT × Cell :=
  s.SelectedOutput.Get row col

/-- Modelled from the spec: `AccumulateLine` appends the line plus one
terminator to the staged input string (first clearing it when the
previous run marked it for clearing, per the header remark on
`RunAccumulated`); allocation cannot fail in the model, so the result
is always `VR_OK`. -/
def IPhreeqc.AccumulateLine (s : IPhreeqc) (line : List Char) : IPhreeqc × VRESULT :=
  let base := if s.ClearAccumulated then [] else s.StringInput
  ({ s with StringInput := base ++ line ++ [termChar], ClearAccumulated := false }, .VR_OK)

def IPhreeqc.GetAccumulatedLines (s : IPhreeqc) : List Char := s.StringInput

def IPhreeqc.ClearAccumulatedLines (s : IPhreeqc) : IPhreeqc :=
  { s with StringInput := [] }

/-- Modelled from the spec: the in-memory capture half of the Stream
Router for a write event.  Errors and warnings are always captured;
Dump capture is guarded by the dump-string switch; Output, Log and
Screen text goes to a generic line buffer; plain Punch text has no
in-memory capture (the grid is fed through the typed punch events).
File-sink writes are external effects outside the model. -/
def captureWrite (k : StreamKind) (t : List Char) (s : IPhreeqc) : IPhreeqc :=
  match k with
  | .Error => (s.AddError t).1
  | .Warning => (s.AddWarning t).1
  | .Dump => if s.DumpStringOn then { s with DumpString := s.DumpString.append t } else s
  | .Punch => s
  | _ => { s with OutputBuf := s.OutputBuf.append t }

/-- Modelled from the spec: a Fatal-Stop is counted and buffered as an
error (sec. 7 taxonomy); an Error-kind event has already been recorded
by its own capture, any other fatal event is recorded here. -/
def recordFatal (s : IPhreeqc) (k : StreamKind) (t : List Char) : IPhreeqc :=
  if k = .Error then s else (s.AddError t).1

/-- Modelled from the spec: `route(event)`.  The returned flag reports
that the event was fatal, i.e. that the Router raises the Stop Signal
after routing. -/
def route (s : IPhreeqc) : EngineEvent → IPhreeqc × Bool
  | .write k t fatal =>
    (if fatal then recordFatal (captureWrite k t s) k t else captureWrite k t s, fatal)
  | .punchCell name v => ({ s with SelectedOutput := s.SelectedOutput.addCell name v }, false)
  | .punchEndRow => ({ s with SelectedOutput := s.SelectedOutput.EndRow }, false)

/-- Routes a whole emission trace; the Stop Signal unwinds the rest of
the trace, so routing stops at the first fatal event.  The flag reports
whether a Stop Signal reached the top-level run operation. -/
def routeAll : IPhreeqc → List EngineEvent → IPhreeqc × Bool
  | s, [] => (s, false)
  | s, e :: rest =>
    if (route s e).2 then ((route s e).1, true) else routeAll (route s e).1 rest

/-- Modelled from the spec: diagnostics (and the grid, which reflects
the most recent run) reset at the start of each load/run operation,
never mid-run. -/
def resetForRun (s : IPhreeqc) : IPhreeqc :=
  { s with
    errorReporter := IErrorReporter.empty
    warningReporter := IErrorReporter.empty
    SelectedOutput := CSelectedOutput.empty
    DumpString := LineBuffer.empty
    OutputBuf := LineBuffer.empty }

/-- Modelled from the spec: `do_run`, the single handling site of the
Stop Signal.  The engine is an opaque external collaborator, so the
emission trace it would produce is an explicit input.  A caught Stop
Signal discards only the staged, uncommitted grid row; the run always
returns normally with the error count produced. -/
def do_run (s : IPhreeqc) (evs : List EngineEvent) : IPhreeqc × Nat :=
  let p := routeAll (resetForRun s) evs
  let s1 :=
    if p.2 then { p.1 with SelectedOutput := p.1.SelectedOutput.discardStaged } else p.1
  (s1, s1.errorReporter.counter)

/-- `RunFile`: runs a named input source (the name only selects the
input handed to the external engine). -/
def RunFile (s : IPhreeqc) (_filename : List Char) (evs : List EngineEvent) :
    IPhreeqc × Nat :=
  do_run s evs

/-- `RunString`: runs a literal input string. -/
def RunString (s : IPhreeqc) (_input : List Char) (evs : List EngineEvent) :
    IPhreeqc × Nat :=
  do_run s evs

/-- `RunAccumulated`: runs the accumulated input and marks the
accumulation buffer to be cleared at the next `AccumulateLine`. -/
def RunAccumulated (s : IPhreeqc) (evs : List EngineEvent) : IPhreeqc × Nat :=
  let p := do_run s evs
  ({ p.1 with ClearAccumulated := true }, p.2)

theorem route_snd (s : IPhreeqc) (e : EngineEvent) : (route s e).2 = e.isFatal := by
  cases e <;> rfl

theorem captureWrite_counter_le (k : StreamKind) (t : List Char) (s : IPhreeqc) :
    s.errorReporter.counter ≤ (captureWrite k t s).errorReporter.counter := by
  cases k <;>
    simp [captureWrite, IPhreeqc.AddError, IPhreeqc.AddWarning, IErrorReporter.add] <;>
    split <;> simp

theorem route_fatal_counter (s : IPhreeqc) (k : StreamKind) (t : List Char) :
    1 ≤ (route s (.write k t true)).1.errorReporter.counter := by
  by_cases hk : k = StreamKind.Error
  · subst hk
    simp [route, recordFatal, captureWrite, IPhreeqc.AddError, IErrorReporter.add]
  · have h1 := captureWrite_counter_le k t s
    simp [route, recordFatal, hk, IPhreeqc.AddError, IErrorReporter.add]

theorem routeAll_fatal_counter (evs : List EngineEvent) :
    ∀ s : IPhreeqc, hasFatal evs = true →
      1 ≤ (routeAll s evs).1.errorReporter.counter := by
  induction evs with
  | nil => intro s h; simp [hasFatal] at h
  | cons e rest ih =>
    intro s h
    cases e with
    | write k t f =>
      cases f with
      | true =>
        have : (route s (.write k t true)).2 = true := route_snd s _
        simp only [routeAll, this, if_pos]
        exact route_fatal_counter s k t
      | false =>
        have hr : (route s (.write k t false)).2 = false := route_snd s _
        have hrest : hasFatal rest = true := by
          simp [hasFatal, EngineEvent.isFatal] at h ⊢; exact h
        simp only [routeAll, hr, if_neg, Bool.false_eq_true, not_false_iff]
        exact ih _ hrest
    | punchCell name v =>
      have hrest : hasFatal rest = true := by
        simp [hasFatal, EngineEvent.isFatal] at h ⊢; exact h
      simp only [routeAll, route]
      exact ih _ hrest
    | punchEndRow =>
      have hrest : hasFatal rest = true := by
        simp [hasFatal, EngineEvent.isFatal] at h ⊢; exact h
      simp only [routeAll, route]
      exact ih _ hrest

theorem do_run_snd (s : IPhreeqc) (evs : List EngineEvent) :
    (do_run s evs).2 = (routeAll (resetForRun s) evs).1.errorReporter.counter := by
  simp only [do_run]
  split <;> rfl

/-- The error messages a trace records: the text of every Error-kind
write (a fatal event ends the trace, so this is used for fatal-free
traces). -/
def errorMsgs : List EngineEvent → List (List Char)
  | [] => []
  | .write .Error t _ :: rest => t :: errorMsgs rest
  | _ :: rest => errorMsgs rest

/-- Concatenation of messages, each followed by one terminator: the
shape of a diagnostics buffer built by repeated `add`. -/
def joinTerm : List (List Char) → List Char
  | [] => []
  | m :: ms => m ++ termChar :: joinTerm ms

theorem countTerm_append (a : List Char) :
    ∀ b : List Char, countTerm (a ++ b) = countTerm a + countTerm b := by
  induction a with
  | nil => intro b; simp [countTerm]
  | cons c cs ih => intro b; simp [countTerm, ih]; omega

theorem countTerm_joinTerm (ms : List (List Char)) (h : ∀ m ∈ ms, countTerm m = 0) :
    countTerm (joinTerm ms) = ms.length := by
  induction ms with
  | nil => rfl
  | cons m ms ih =>
    have hm : countTerm m = 0 := h m (by simp)
    have hms : ∀ x ∈ ms, countTerm x = 0 := fun x hx => h x (by simp [hx])
    simp [joinTerm, countTerm_append, hm, countTerm, termChar, ih hms]
    omega

theorem captureWrite_errorReporter_of_ne (k : StreamKind) (t : List Char) (s : IPhreeqc)
    (hk : k ≠ StreamKind.Error) :
    (captureWrite k t s).errorReporter = s.errorReporter := by
  cases k with
  | Error => exact absurd rfl hk
  | Warning => rfl
  | Dump => simp only [captureWrite]; split <;> rfl
  | Output => rfl
  | Log => rfl
  | Screen => rfl
  | Punch => rfl

theorem routeAll_noFatal (evs : List EngineEvent) :
    ∀ s : IPhreeqc, hasFatal evs = false →
      (routeAll s evs).2 = false ∧
      (routeAll s evs).1.errorReporter.buf.text
        = s.errorReporter.buf.text ++ joinTerm (errorMsgs evs) ∧
      (routeAll s evs).1.errorReporter.counter
        = s.errorReporter.counter + (errorMsgs evs).length := by
  induction evs with
  | nil => intro s _; simp [routeAll, errorMsgs, joinTerm]
  | cons e rest ih =>
    intro s h
    rw [hasFatal, List.any_cons, Bool.or_eq_false_iff] at h
    obtain ⟨he, hrest'⟩ := h
    have hrest : hasFatal rest = false := hrest'
    cases e with
    | punchCell name v =>
      obtain ⟨ha, hb, hc⟩ := ih { s with SelectedOutput := s.SelectedOutput.addCell name v } hrest
      exact ⟨ha, by simpa [errorMsgs] using hb, by simpa [errorMsgs] using hc⟩
    | punchEndRow =>
      obtain ⟨ha, hb, hc⟩ := ih { s with SelectedOutput := s.SelectedOutput.EndRow } hrest
      exact ⟨ha, by simpa [errorMsgs] using hb, by simpa [errorMsgs] using hc⟩
    | write k t f =>
      have hf : f = false := by simpa [EngineEvent.isFatal] using he
      subst hf
      by_cases hk : k = StreamKind.Error
      · subst hk
        obtain ⟨ha, hb, hc⟩ := ih (s.AddError t).1 hrest
        refine ⟨ha, ?_, ?_⟩
        · rw [show (routeAll s (EngineEvent.write StreamKind.Error t false :: rest)).1
              = (routeAll (s.AddError t).1 rest).1 from rfl, hb]
          simp [IPhreeqc.AddError, IErrorReporter.add, LineBuffer.append, errorMsgs,
                joinTerm, List.append_assoc]
        · rw [show (routeAll s (EngineEvent.write StreamKind.Error t false :: rest)).1
              = (routeAll (s.AddError t).1 rest).1 from rfl, hc]
          simp [IPhreeqc.AddError, IErrorReporter.add, errorMsgs]
          omega
      · obtain ⟨ha, hb, hc⟩ := ih (captureWrite k t s) hrest
        have hcap := captureWrite_errorReporter_of_ne k t s hk
        have hmsgs : errorMsgs (EngineEvent.write k t false :: rest) = errorMsgs rest := by
          cases k <;> first | rfl | exact absurd rfl hk
        refine ⟨ha, ?_, ?_⟩
        · rw [show (routeAll s (EngineEvent.write k t false :: rest)).1
              = (routeAll (captureWrite k t s) rest).1 from rfl, hb, hcap, hmsgs]
        · rw [show (routeAll s (EngineEvent.write k t false :: rest)).1
              = (routeAll (captureWrite k t s) rest).1 from rfl, hc, hcap, hmsgs]

/-- C6: for every sequence of append operations on a Line Buffer,
`line_count()` equals the number of terminators in the concatenation of
all appended text, and for every `i` in `[0, line_count)`, `line_at(i)`
reproduces exactly the text between terminator boundary `i` and the
next terminator (boundary 0 being the start of the text). -/
theorem claim_C6_line_buffer (ts : List (List Char)) (i : Nat)
    (hi : i < (ts.foldl LineBuffer.append LineBuffer.empty).lineCount) :
    (ts.foldl LineBuffer.append LineBuffer.empty).lineCount = countTerm ts.flatten ∧
    (ts.foldl LineBuffer.append LineBuffer.empty).lineAt i = segmentBetween i ts.flatten := by
  have htext : (ts.foldl LineBuffer.append LineBuffer.empty).text = ts.flatten := by
    simpa using foldl_append_text ts LineBuffer.empty
  have hcnt : (ts.foldl LineBuffer.append LineBuffer.empty).lineCount = countTerm ts.flatten := by
    rw [lineCount_eq_countTerm, htext]
  refine ⟨hcnt, ?_⟩
  rw [LineBuffer.lineAt, if_pos hi, htext]
  exact splitTerm_getD ts.flatten i (by rwa [hcnt] at hi)

theorem claim_C6_line_buffer_witness :
    1 < (["ab\n".data, "c\nd".data].foldl LineBuffer.append LineBuffer.empty).lineCount ∧
    ((["ab\n".data, "c\nd".data].foldl LineBuffer.append LineBuffer.empty).lineCount
        = countTerm ["ab\n".data, "c\nd".data].flatten ∧
      (["ab\n".data, "c\nd".data].foldl LineBuffer.append LineBuffer.empty).lineAt 1
        = segmentBetween 1 ["ab\n".data, "c\nd".data].flatten) :=
  ⟨by decide, claim_C6_line_buffer ["ab\n".data, "c\nd".data] 1 (by decide)⟩

/-- C7: `add(m)` (`AddError` / `AddWarning`) appends `m` plus a
terminator to the corresponding Line Buffer, increments the
corresponding counter by one, and returns the post-increment value;
three adds of "bad input" on the error aggregator give
`line_count() == 3` and the third call returns 3. -/
theorem claim_C7_add_diagnostics (s : IPhreeqc) (m : List Char) :
    ((s.AddError m).1.errorReporter.buf.text = s.errorReporter.buf.text ++ m ++ [termChar] ∧
      (s.AddError m).1.errorReporter.counter = s.errorReporter.counter + 1 ∧
      (s.AddError m).2 = s.errorReporter.counter + 1 ∧
      (s.AddError m).1.warningReporter = s.warningReporter) ∧
    ((s.AddWarning m).1.warningReporter.buf.text
        = s.warningReporter.buf.text ++ m ++ [termChar] ∧
      (s.AddWarning m).1.warningReporter.counter = s.warningReporter.counter + 1 ∧
      (s.AddWarning m).2 = s.warningReporter.counter + 1 ∧
      (s.AddWarning m).1.errorReporter = s.errorReporter) ∧
    ((((IPhreeqc.initial.AddError "bad input".data).1.AddError "bad input".data).1.AddError
        "bad input".data).1.GetErrorStringLineCount = 3 ∧
      (((IPhreeqc.initial.AddError "bad input".data).1.AddError "bad input".data).1.AddError
        "bad input".data).2 = 3) := by
  refine ⟨⟨?_, rfl, rfl, rfl⟩, ⟨?_, rfl, rfl, rfl⟩, by decide, by decide⟩
  · simp [IPhreeqc.AddError, IErrorReporter.add, LineBuffer.append, List.append_assoc]
  · simp [IPhreeqc.AddWarning, IErrorReporter.add, LineBuffer.append, List.append_assoc]

/-- C8: `begin_row()` (`EndRow`) with nothing staged is a no-op
(commits no empty row, changes nothing); with staged cells it commits
them as one new row, increments the row count by one, and resets the
column cursor to 0. -/
theorem claim_C8_end_row (g : CSelectedOutput) :
    (g.staged = [] → g.EndRow = g) ∧
    (g.staged ≠ [] →
      g.EndRow.GetRowCount = g.GetRowCount + 1 ∧
      g.EndRow.rows = g.rows ++ [g.staged] ∧
      g.EndRow.curCol = 0 ∧
      g.EndRow.GetColCount = g.GetColCount) := by
  constructor
  · intro h
    simp [CSelectedOutput.EndRow, h]
  · intro h
    have hne : g.staged.isEmpty = false := by
      cases hs : g.staged
      · exact absurd hs h
      · rfl
    simp [CSelectedOutput.EndRow, hne, CSelectedOutput.GetRowCount, CSelectedOutput.GetColCount]

def gridNoStage : CSelectedOutput := ⟨["Ca".data], [[Cell.Integer 7]], [], 0⟩

def gridStage : CSelectedOutput := ⟨["Ca".data], [], [Cell.Integer 7], 1⟩

theorem claim_C8_end_row_witness :
    gridNoStage.EndRow = gridNoStage ∧
    (gridStage.EndRow.GetRowCount = gridStage.GetRowCount + 1 ∧
      gridStage.EndRow.rows = gridStage.rows ++ [gridStage.staged] ∧
      gridStage.EndRow.curCol = 0 ∧
      gridStage.EndRow.GetColCount = gridStage.GetColCount) :=
  ⟨(claim_C8_end_row gridNoStage).1 rfl,
   (claim_C8_end_row gridStage).2 (List.cons_ne_nil _ _)⟩

/-- C9: `AccumulateLine` appends the line plus exactly one terminator
to the staged string (after the documented automatic clear following a
completed run) and returns `VR_OK` (allocation cannot fail in the
model); `GetAccumulatedLines` returns the full staged string, so two
appends give "TITLE x\nEND\n". -/
theorem claim_C9_accumulate (s : IPhreeqc) (line : List Char) :
    ((s.AccumulateLine line).2 = VRESULT.VR_OK ∧
      (s.AccumulateLine line).1.StringInput
        = (if s.ClearAccumulated then [] else s.StringInput) ++ line ++ [termChar]) ∧
    ((IPhreeqc.initial.AccumulateLine "TITLE x".data).1.AccumulateLine
        "END".data).1.GetAccumulatedLines = "TITLE x\nEND\n".data := by
  refine ⟨⟨rfl, rfl⟩, by decide⟩

/-- C10: immediately after construction every output-routing switch
getter returns false. -/
theorem claim_C10_default_switches :
    IPhreeqc.initial.GetOutputFileOn = false ∧
    IPhreeqc.initial.GetLogFileOn = false ∧
    IPhreeqc.initial.GetErrorFileOn = false ∧
    IPhreeqc.initial.GetDumpFileOn = false ∧
    IPhreeqc.initial.GetDumpStringOn = false ∧
    IPhreeqc.initial.GetSelectedOutputFileOn = false :=
  ⟨rfl, rfl, rfl, rfl, rfl, rfl⟩

/-- C3: for any grid and any further sequence of punch operations,
`get(0, c)` returns the header label that column `c` carried when it
was introduced, rendered as a Text cell, for every `c < col_count()`,
regardless of how many rows are committed afterward (the header only
ever grows by appending). -/
theorem claim_C3_header_row (g : CSelectedOutput) (ops : List GridOp) (c : Nat)
    (hc : c < g.GetColCount) :
    ((g.applyOps ops).Get 0 (c : Int)).2 = Cell.Text (g.header.getD c []) := by
  obtain ⟨ext, hh⟩ := header_applyOps ops g
  have hc0 : c < g.header.length := hc
  have hlen : g.header.length ≤ (g.applyOps ops).header.length := by
    rw [hh]; simp
  have h1 : ¬((0 : Int) < 0 ∨ ((g.applyOps ops).rows.length : Int) < 0) := by omega
  have h2 : ¬((c : Int) < 0 ∨ ((g.applyOps ops).header.length : Int) ≤ (c : Int)) := by
    have := lt_of_lt_of_le hc0 hlen
    omega
  unfold CSelectedOutput.Get
  rw [if_neg h1, if_neg h2, if_pos rfl]
  simp only [Int.toNat_natCast]
  rw [hh, getD_append_left g.header ext c [] hc0]

def gridC3 : CSelectedOutput := CSelectedOutput.empty.addCell "Ca".data (Cell.Integer 1)

def opsC3 : List GridOp :=
  [GridOp.endRow, GridOp.addCell "Na".data (Cell.Integer 2), GridOp.endRow]

theorem claim_C3_header_row_witness :
    0 < gridC3.GetColCount ∧
    ((gridC3.applyOps opsC3).Get 0 (0 : Int)).2 = Cell.Text (gridC3.header.getD 0 []) :=
  ⟨by decide, claim_C3_header_row gridC3 opsC3 0 (by decide)⟩

theorem getD_of_length_le {α : Type} :
    ∀ (l : List α) (n : Nat) (d : α), l.length ≤ n → l.getD n d = d := by
  intro l
  induction l with
  | nil => intro n d _; simp
  | cons a as ih =>
    intro n d h
    cases n with
    | zero => simp at h
    | succ m => simpa using ih m d (by simpa using h)

/-- C2 (amended): every index-taking query is total and returns a
sentinel out of range.  For the grid the addressable rows are 0 (the
header row) through `row_count()` (the last committed row), so
`get(r, c)` yields Empty whenever `r > row_count()` or
`c ≥ col_count()` (or either index is negative); every line-indexed
getter returns the empty string outside `[0, line_count)`. -/
theorem claim_C2_total_queries (g : CSelectedOutput) (s : IPhreeqc) (r c nE nW nC : Int)
    (hrc : (g.GetRowCount : Int) + 1 ≤ r ∨ (g.GetColCount : Int) ≤ c ∨ r < 0 ∨ c < 0)
    (hE : nE < 0 ∨ (s.GetErrorStringLineCount : Int) ≤ nE)
    (hW : nW < 0 ∨ (s.GetWarningStringLineCount : Int) ≤ nW)
    (hC : nC < 0 ∨ (s.GetComponentCount : Int) ≤ nC) :
    (g.Get r c).2 = Cell.Empty ∧
    s.GetErrorStringLine nE = [] ∧
    s.GetWarningStringLine nW = [] ∧
    s.GetComponent nC = [] := by
  refine ⟨?_, ?_, ?_, ?_⟩
  · simp only [CSelectedOutput.GetRowCount, CSelectedOutput.GetColCount] at hrc
    unfold CSelectedOutput.Get
    split
    · rfl
    · split
      · rfl
      · rename_i hrow hcol
        exfalso
        omega
  · simp only [IPhreeqc.GetErrorStringLineCount, lineCount_eq_countTerm] at hE
    unfold IPhreeqc.GetErrorStringLine
    split
    · rfl
    · rename_i hneg
      rw [LineBuffer.lineAt, if_neg (by rw [lineCount_eq_countTerm]; omega)]
  · simp only [IPhreeqc.GetWarningStringLineCount, lineCount_eq_countTerm] at hW
    unfold IPhreeqc.GetWarningStringLine
    split
    · rfl
    · rename_i hneg
      rw [LineBuffer.lineAt, if_neg (by rw [lineCount_eq_countTerm]; omega)]
  · simp only [IPhreeqc.GetComponentCount] at hC
    unfold IPhreeqc.GetComponent
    split
    · rfl
    · rename_i hneg
      exact getD_of_length_le s.Components nC.toNat [] (by omega)

theorem claim_C2_total_queries_witness :
    (CSelectedOutput.empty.Get 5 0).2 = Cell.Empty ∧
    IPhreeqc.initial.GetErrorStringLine 0 = [] ∧
    IPhreeqc.initial.GetWarningStringLine 0 = [] ∧
    IPhreeqc.initial.GetComponent 0 = [] :=
  claim_C2_total_queries CSelectedOutput.empty IPhreeqc.initial 5 0 0 0 0
    (by decide) (by decide) (by decide) (by decide)

def gridC2 : CSelectedOutput :=
  (CSelectedOutput.empty.addCell "Ca".data (Cell.Integer 2)).EndRow

/-- C2 as stated fails on the model: with one committed row,
`row_count() == 1`, yet `get(1, 0)` addresses that committed data row
(row 0 being the header) and is not Empty, although `1 ≥ row_count()`. -/
theorem claim_C2_counterexample :
    (gridC2.GetRowCount : Int) ≤ 1 ∧ (gridC2.Get 1 0).2 ≠ Cell.Empty := by
  refine ⟨by decide, ?_⟩
  have hv : (gridC2.Get 1 0).2 = Cell.Integer 2 := rfl
  rw [hv]
  exact fun h => Cell.noConfusion h

/-- The spec's Scenario 4 as an emission trace: two rows committed, a
third row partially staged, then a Fatal-Stop. -/
def scenario4Events : List EngineEvent :=
  [EngineEvent.punchCell "Ca".data (Cell.Integer 1),
   EngineEvent.punchCell "Na".data (Cell.Integer 2),
   EngineEvent.punchEndRow,
   EngineEvent.punchCell "Ca".data (Cell.Integer 3),
   EngineEvent.punchCell "Na".data (Cell.Integer 4),
   EngineEvent.punchEndRow,
   EngineEvent.punchCell "Ca".data (Cell.Integer 5),
   EngineEvent.write StreamKind.Error "fatal".data true]

/-- C5: aborting on a Fatal-Stop discards only the staged, uncommitted
row and preserves every committed row unchanged; in particular a run
aborted after two committed rows and a partially staged third leaves
`row_count() == 2` with both committed rows intact. -/
theorem claim_C5_abort_preserves_rows :
    (∀ g : CSelectedOutput, g.discardStaged.rows = g.rows) ∧
    (∀ s : IPhreeqc,
      (do_run s scenario4Events).1.GetSelectedOutputRowCount = 2 ∧
      (do_run s scenario4Events).1.SelectedOutput.rows
        = [[Cell.Integer 1, Cell.Integer 2], [Cell.Integer 3, Cell.Integer 4]] ∧
      (do_run s scenario4Events).1.SelectedOutput.staged = []) :=
  ⟨fun _ => rfl, fun _ => ⟨rfl, rfl, rfl⟩⟩

/-- C1: the Stop Signal is caught at the single top-level run
operation (`do_run` in the model, the one handling site), so every run
entry point returns normally, and a run during which a Fatal-Stop was
raised reports an error count of at least one. -/
theorem claim_C1_fatal_stop_caught (s : IPhreeqc) (evs : List EngineEvent)
    (fname input : List Char) (h : hasFatal evs = true) :
    1 ≤ (RunAccumulated s evs).2 ∧
    1 ≤ (RunFile s fname evs).2 ∧
    1 ≤ (RunString s input evs).2 := by
  have hd : 1 ≤ (do_run s evs).2 := by
    rw [do_run_snd]
    exact routeAll_fatal_counter evs (resetForRun s) h
  exact ⟨hd, hd, hd⟩

def fatalTrace : List EngineEvent := [EngineEvent.write StreamKind.Error "boom".data true]

theorem claim_C1_fatal_stop_caught_witness :
    hasFatal fatalTrace = true ∧
    (1 ≤ (RunAccumulated IPhreeqc.initial fatalTrace).2 ∧
      1 ≤ (RunFile IPhreeqc.initial [] fatalTrace).2 ∧
      1 ≤ (RunString IPhreeqc.initial [] fatalTrace).2) :=
  ⟨rfl, claim_C1_fatal_stop_caught IPhreeqc.initial fatalTrace [] [] rfl⟩

/-- The warning messages a trace records: the text of every
Warning-kind write. -/
def warningMsgs : List EngineEvent → List (List Char)
  | [] => []
  | .write .Warning t _ :: rest => t :: warningMsgs rest
  | _ :: rest => warningMsgs rest

theorem captureWrite_warningReporter_of_ne (k : StreamKind) (t : List Char) (s : IPhreeqc)
    (hk : k ≠ StreamKind.Warning) :
    (captureWrite k t s).warningReporter = s.warningReporter := by
  cases k with
  | Warning => exact absurd rfl hk
  | Error => rfl
  | Dump => simp only [captureWrite]; split <;> rfl
  | Output => rfl
  | Log => rfl
  | Screen => rfl
  | Punch => rfl

theorem routeAll_noFatal_warnings (evs : List EngineEvent) :
    ∀ s : IPhreeqc, hasFatal evs = false →
      (routeAll s evs).1.warningReporter.buf.text
        = s.warningReporter.buf.text ++ joinTerm (warningMsgs evs) ∧
      (routeAll s evs).1.warningReporter.counter
        = s.warningReporter.counter + (warningMsgs evs).length := by
  induction evs with
  | nil => intro s _; simp [routeAll, warningMsgs, joinTerm]
  | cons e rest ih =>
    intro s h
    rw [hasFatal, List.any_cons, Bool.or_eq_false_iff] at h
    obtain ⟨he, hrest'⟩ := h
    have hrest : hasFatal rest = false := hrest'
    cases e with
    | punchCell name v =>
      obtain ⟨hb, hc⟩ := ih { s with SelectedOutput := s.SelectedOutput.addCell name v } hrest
      exact ⟨by simpa [warningMsgs] using hb, by simpa [warningMsgs] using hc⟩
    | punchEndRow =>
      obtain ⟨hb, hc⟩ := ih { s with SelectedOutput := s.SelectedOutput.EndRow } hrest
      exact ⟨by simpa [warningMsgs] using hb, by simpa [warningMsgs] using hc⟩
    | write k t f =>
      have hf : f = false := by simpa [EngineEvent.isFatal] using he
      subst hf
      by_cases hk : k = StreamKind.Warning
      · subst hk
        obtain ⟨hb, hc⟩ := ih (s.AddWarning t).1 hrest
        refine ⟨?_, ?_⟩
        · rw [show (routeAll s (EngineEvent.write StreamKind.Warning t false :: rest)).1
              = (routeAll (s.AddWarning t).1 rest).1 from rfl, hb]
          simp [IPhreeqc.AddWarning, IErrorReporter.add, LineBuffer.append, warningMsgs,
                joinTerm, List.append_assoc]
        · rw [show (routeAll s (EngineEvent.write StreamKind.Warning t false :: rest)).1
              = (routeAll (s.AddWarning t).1 rest).1 from rfl, hc]
          simp [IPhreeqc.AddWarning, IErrorReporter.add, warningMsgs]
          omega
      · obtain ⟨hb, hc⟩ := ih (captureWrite k t s) hrest
        have hcap := captureWrite_warningReporter_of_ne k t s hk
        have hmsgs : warningMsgs (EngineEvent.write k t false :: rest) = warningMsgs rest := by
          cases k <;> first | rfl | exact absurd rfl hk
        refine ⟨?_, ?_⟩
        · rw [show (routeAll s (EngineEvent.write k t false :: rest)).1
              = (routeAll (captureWrite k t s) rest).1 from rfl, hb, hcap, hmsgs]
        · rw [show (routeAll s (EngineEvent.write k t false :: rest)).1
              = (routeAll (captureWrite k t s) rest).1 from rfl, hc, hcap, hmsgs]

/-- C4 (amended): a run producing zero Fatal-Stop events returns the
number of errors recorded (the error aggregator's counter), and after
the run the error and warning buffers and counters hold exactly the
run's own messages, each message followed by one terminator —
diagnostics (both aggregators) are therefore reset at the start of the
run (the result is independent of all prior diagnostics, so not reset
at construction time but at run start) and never mid-run; the returned
count equals the error aggregator's `line_count()` provided no
recorded error message itself contains a terminator. -/
theorem claim_C4_error_count (s : IPhreeqc) (evs : List EngineEvent)
    (h : hasFatal evs = false) :
    (do_run s evs).2 = (errorMsgs evs).length ∧
    (do_run s evs).1.errorReporter.buf.text = joinTerm (errorMsgs evs) ∧
    (do_run s evs).1.errorReporter.counter = (errorMsgs evs).length ∧
    (do_run s evs).1.warningReporter.buf.text = joinTerm (warningMsgs evs) ∧
    (do_run s evs).1.warningReporter.counter = (warningMsgs evs).length ∧
    ((∀ m ∈ errorMsgs evs, countTerm m = 0) →
      (do_run s evs).2 = (do_run s evs).1.GetErrorStringLineCount) := by
  obtain ⟨ha, hb, hc⟩ := routeAll_noFatal evs (resetForRun s) h
  obtain ⟨hwb, hwc⟩ := routeAll_noFatal_warnings evs (resetForRun s) h
  have hrun1 : (do_run s evs).1 = (routeAll (resetForRun s) evs).1 := by
    simp [do_run, ha]
  have hrun2 : (do_run s evs).2
      = (routeAll (resetForRun s) evs).1.errorReporter.counter := by
    simp [do_run, ha]
  rw [show (resetForRun s).errorReporter = IErrorReporter.empty from rfl] at hb hc
  rw [show (resetForRun s).warningReporter = IErrorReporter.empty from rfl] at hwb hwc
  simp only [IErrorReporter.empty, LineBuffer.empty, List.nil_append, Nat.zero_add]
    at hb hc hwb hwc
  refine ⟨by rw [hrun2, hc], by rw [hrun1, hb], by rw [hrun1, hc], by rw [hrun1, hwb],
    by rw [hrun1, hwc], ?_⟩
  intro hnt
  rw [hrun2, hc, hrun1]
  unfold IPhreeqc.GetErrorStringLineCount
  rw [lineCount_eq_countTerm, hb, countTerm_joinTerm _ hnt]

def cleanTrace : List EngineEvent :=
  [EngineEvent.write StreamKind.Error "bad input".data false,
   EngineEvent.write StreamKind.Warning "careful".data false]

theorem claim_C4_error_count_witness :
    hasFatal cleanTrace = false ∧
    ((do_run IPhreeqc.initial cleanTrace).2 = (errorMsgs cleanTrace).length ∧
      (do_run IPhreeqc.initial cleanTrace).1.errorReporter.buf.text
        = joinTerm (errorMsgs cleanTrace) ∧
      (do_run IPhreeqc.initial cleanTrace).1.errorReporter.counter
        = (errorMsgs cleanTrace).length ∧
      (do_run IPhreeqc.initial cleanTrace).1.warningReporter.buf.text
        = joinTerm (warningMsgs cleanTrace) ∧
      (do_run IPhreeqc.initial cleanTrace).1.warningReporter.counter
        = (warningMsgs cleanTrace).length ∧
      (do_run IPhreeqc.initial cleanTrace).2
        = (do_run IPhreeqc.initial cleanTrace).1.GetErrorStringLineCount) := by
  have h := claim_C4_error_count IPhreeqc.initial cleanTrace rfl
  exact ⟨rfl, h.1, h.2.1, h.2.2.1, h.2.2.2.1, h.2.2.2.2.1, h.2.2.2.2.2 (by decide)⟩

def multilineTrace : List EngineEvent :=
  [EngineEvent.write StreamKind.Error ('a' :: termChar :: ['b']) false]

/-- C4 as stated fails on the model: a single recorded error message
containing an embedded terminator makes the run return 1 while the
error buffer has 2 terminator-delimited lines. -/
theorem claim_C4_counterexample :
    hasFatal multilineTrace = false ∧
    (do_run IPhreeqc.initial multilineTrace).2
      ≠ (do_run IPhreeqc.initial multilineTrace).1.GetErrorStringLineCount :=
  ⟨rfl, by decide⟩
